import Mathlib

/-!
Verification of the marked-section merge algorithm of `setup.py`
(class `ShellConfigManager`).

The program text is shallowly embedded over `Text := List Char`:

* `pyStrip` models Python `str.strip()` (default whitespace, ASCII range);
* `findSub pat s` models the index of the leftmost occurrence of a literal
  pattern, `findMatch st en s` models `re.search` of the DOTALL pattern
  `re.escape(start) + ".*?" + re.escape(end)` used by
  `ShellConfigManager.find_existing_section` (setup.py lines 106-113):
  the match starts at the leftmost occurrence of `st` and ends at the first
  occurrence of `en` beginning at or after the end of that `st` occurrence
  (non-greedy `.*?`); if the leftmost `st` has no such `en`, no later
  position can have one either, so the whole search fails, exactly as the
  regex engine behaves;
* `subAll` models `pattern.sub("", content)` of
  `ShellConfigManager.remove_existing_section` (lines 115-121): `re.sub`
  with the default count removes EVERY non-overlapping match, scanning left
  to right and continuing right after each removed span;
* `update_shell_config` models the pure text transformation of
  `ShellConfigManager.update_shell_config` (lines 130-158): strip the file
  content on read (line 137), remove the existing section when the regex
  matches (lines 143-147), then append the freshly generated block,
  separated by a blank line when the residual is non-empty (lines 150-154);
* `wrapBlock m g` is the shape of `generate_alias_content` (lines 78-104):
  the start marker, a newline, the generated body `g`, a newline, and the
  end marker ("\n".join with the start marker first and the end marker
  last);
* `shippedMarkers` is the marker dictionary built in `__init__` (line 13):
  both the "start" and the "end" entry are the string "## local-helpers".
-/

/-- A document is an ordered sequence of characters. -/
abbrev Text := List Char

/-- Python `str.strip()` default whitespace characters, ASCII range
(space, tab, newline, carriage return, vertical tab, form feed). -/
def isPyWS (c : Char) : Bool :=
  c == ' ' || c == '\t' || c == '\n' || c == '\r' || c == '\x0b' || c == '\x0c'

/-- Python `str.strip()`: drop whitespace from both ends. -/
def pyStrip (s : Text) : Text :=
  ((s.dropWhile isPyWS).reverse.dropWhile isPyWS).reverse

/-- The literal pattern `pat` occurs in `s` at index `i` (Bool form). -/
def occursAtB (pat s : Text) (i : Nat) : Bool :=
  (s.drop i).take pat.length == pat

/-- The literal pattern `pat` occurs in `s` at index `i`. -/
def occursAt (pat s : Text) (i : Nat) : Prop :=
  (s.drop i).take pat.length = pat

instance (pat s : Text) (i : Nat) : Decidable (occursAt pat s i) := by
  unfold occursAt; infer_instance

/-- The literal pattern `pat` occurs somewhere in `s` (Bool form,
searching the index range 0..s.length, which is exhaustive). -/
def occursInB (pat s : Text) : Bool :=
  (List.range (s.length + 1)).any (occursAtB pat s)

/-- The literal pattern `pat` occurs somewhere in `s`. -/
def occursIn (pat s : Text) : Prop :=
  ∃ i, occursAt pat s i

/-- Index of the leftmost occurrence of the literal `pat` in `s`,
or `none`. An empty pattern occurs at every position, hence at 0. -/
def findSub (pat : Text) : Text → Option Nat
  | [] => if pat = [] then some 0 else none
  | c :: rest =>
    if occursAtB pat (c :: rest) 0 then some 0
    else (findSub pat rest).map (· + 1)

/-- Model of `re.search` for the DOTALL pattern
`re.escape(st) + ".*?" + re.escape(en)` (setup.py lines 108-112):
leftmost starting position, then shortest extension. Returns the matched
span `(i, e)` as start index and exclusive end index. -/
def findMatch (st en s : Text) : Option (Nat × Nat) :=
  match findSub st s with
  | none => none
  | some i =>
    match findSub en (s.drop (i + st.length)) with
    | none => none
    | some j => some (i, i + st.length + j + en.length)

/-- Fuelled worker for `subAll`: remove every non-overlapping match,
left to right, continuing right after each removed span, exactly as
`re.sub` with the default count does. The `i < e` guard only rules out
the degenerate empty match, which cannot arise for non-empty markers
(an `re.sub` empty match would advance by one character instead). -/
def subAllF (st en : Text) : Nat → Text → Text
  | 0, s => s
  | fuel + 1, s =>
    match findMatch st en s with
    | none => s
    | some (i, e) =>
      if i < e then s.take i ++ subAllF st en fuel (s.drop e) else s

/-- Model of `pattern.sub("", content)` in `remove_existing_section`
(setup.py line 121): remove every non-overlapping match. Each removed
span is non-empty for non-empty markers, so `s.length` fuel suffices. -/
def subAll (st en s : Text) : Text := subAllF st en s.length s

/-- The marker pair, `self.markers` in the source. The source dictionary
keys are "start" and "end"; `end` is reserved in Lean, so the second
field is named `stop`. -/
structure Markers where
  start : Text
  stop : Text

/-- Model of `ShellConfigManager.find_existing_section` (lines 106-113). -/
def find_existing_section (m : Markers) (content : Text) : Option (Nat × Nat) :=
  findMatch m.start m.stop content

/-- Model of `ShellConfigManager.remove_existing_section` (lines 115-121):
`pattern.sub("", content).strip()`. -/
def remove_existing_section (m : Markers) (content : Text) : Text :=
  pyStrip (subAll m.start m.stop content)

/-- The wrapped block: start marker, newline, generated body, newline,
end marker. This is the shape `generate_alias_content` (lines 78-104)
produces: `"\n".join` of a list whose first element is the start marker
and whose last element is the end marker; the joined middle lines are the
abstract generated body `g` of the specification. -/
def wrapBlock (m : Markers) (g : Text) : Text :=
  m.start ++ '\n' :: (g ++ '\n' :: m.stop)

/-- The blank-line separator `f"{new_content}\n\n{alias_content}"`
inserts between the residual document and the new block (line 152). -/
def sepNL : Text := ['\n', '\n']

/-- Model of the pure text transformation performed by
`ShellConfigManager.update_shell_config` (lines 130-158) on the file
content `content`, with `generated` the body of the freshly generated
block: strip on read (line 137), remove the existing section when the
regex search succeeds (lines 143-147), then append the wrapped block,
preceded by a blank line when the residual is non-empty (lines 150-154). -/
def update_shell_config (m : Markers) (generated content : Text) : Text :=
  let current := pyStrip content
  let newContent :=
    if (find_existing_section m current).isSome then
      remove_existing_section m current
    else current
  if newContent = [] then wrapBlock m generated
  else newContent ++ sepNL ++ wrapBlock m generated

/-- The specification contract `merge(document, generated, markers)`,
realised by `update_shell_config`. -/
def merge (d g : Text) (m : Markers) : Text := update_shell_config m g d

/-- The marker string hard-coded in `ShellConfigManager.__init__`
(line 13). -/
def shippedMarkerText : Text := "## local-helpers".data

/-- The shipped marker dictionary (line 13): the "start" and "end"
entries are the same string. -/
def shippedMarkers : Markers := ⟨shippedMarkerText, shippedMarkerText⟩

/-- The final assembly step of `update_shell_config` (lines 151-154):
residual `r`, then a blank line, then the wrapped block; the wrapped
block alone when the residual is empty. -/
def assemble (m : Markers) (r g : Text) : Text :=
  if r = [] then wrapBlock m g else r ++ sepNL ++ wrapBlock m g

/-- Exactly one occurrence of `pat` in `s`. -/
def uniqueOcc (pat s : Text) : Prop :=
  ∃ i, occursAt pat s i ∧ ∀ j, occursAt pat s j → j = i

example : merge [] ['a'] ⟨['S'], ['E']⟩ = "S\na\nE".data := by decide
example : merge "x y".data ['a'] ⟨['S'], ['E']⟩ = "x y\n\nS\na\nE".data := by decide
example : merge " x ".data ['a'] ⟨['S'], ['E']⟩ = "x\n\nS\na\nE".data := by decide
example : merge "p S old E q".data ['a'] ⟨['S'], ['E']⟩ = "p  q\n\nS\na\nE".data := by decide
example : merge "S a E S b E".data ['c'] ⟨['S'], ['E']⟩ = "S\nc\nE".data := by decide
example : merge "M\nold\nM".data ['n'] ⟨['M'], ['M']⟩ = "M\nn\nM".data := by decide

lemma occursAtB_iff (pat s : Text) (i : Nat) :
    occursAtB pat s i = true ↔ occursAt pat s i := by
  simp [occursAtB, occursAt]

lemma occursAt_cons_succ (pat : Text) (c : Char) (l : Text) (j : Nat) :
    occursAt pat (c :: l) (j + 1) ↔ occursAt pat l j := by
  unfold occursAt
  rw [List.drop_succ_cons]

lemma occursAt_length {pat s : Text} {i : Nat} (h : occursAt pat s i)
    (hne : pat ≠ []) : i + pat.length ≤ s.length := by
  unfold occursAt at h
  have hlen := congrArg List.length h
  rw [List.length_take, List.length_drop] at hlen
  have hpos : 0 < pat.length := List.length_pos.mpr hne
  rcases le_or_lt pat.length (s.length - i) with h1 | h1
  · omega
  · rw [min_eq_right (le_of_lt h1)] at hlen
    omega

lemma occursAt_high {pat s : Text} {i : Nat} (h : s.length ≤ i) :
    occursAt pat s i ↔ occursAt pat s s.length := by
  unfold occursAt
  rw [List.drop_eq_nil_of_le h, List.drop_eq_nil_of_le le_rfl]

lemma occursAt_drop_iff (pat s : Text) (k j : Nat) :
    occursAt pat (s.drop k) j ↔ occursAt pat s (k + j) := by
  unfold occursAt
  rw [List.drop_drop]

lemma occursAt_append_right (pat a b : Text) (j : Nat) :
    occursAt pat (a ++ b) (a.length + j) ↔ occursAt pat b j := by
  unfold occursAt
  rw [List.drop_append]

lemma occursAt_append_left {pat : Text} (a b : Text) {i : Nat}
    (hle : i + pat.length ≤ a.length) :
    occursAt pat (a ++ b) i ↔ occursAt pat a i := by
  unfold occursAt
  rw [List.drop_append_of_le_length (by omega),
    List.take_append_of_le_length (by rw [List.length_drop]; omega)]

lemma occursAt_cons_head {pat : Text} (hne : pat ≠ []) {c : Char} {l : Text}
    (h : occursAt pat (c :: l) 0) : c ∈ pat := by
  cases pat with
  | nil => exact absurd rfl hne
  | cons p0 ptl =>
    unfold occursAt at h
    rw [List.drop_zero, List.length_cons, List.take_succ_cons] at h
    rw [← List.cons.injEq p0 ptl c (List.take ptl.length l) |>.mp h.symm |>.1]
    exact List.mem_cons_self p0 ptl

lemma occursAt_cons_nl {pat : Text} (hne : pat ≠ []) (hnl : '\n' ∉ pat)
    {b : Text} {j : Nat} (h : occursAt pat ('\n' :: b) j) :
    1 ≤ j ∧ occursAt pat b (j - 1) := by
  cases j with
  | zero => exact absurd (occursAt_cons_head hne h) hnl
  | succ j0 =>
    refine ⟨by omega, ?_⟩
    rw [occursAt_cons_succ] at h
    simpa using h

lemma occursAt_append_nl {pat : Text} (hne : pat ≠ []) (hnl : '\n' ∉ pat)
    {a b : Text} {i : Nat} (h : occursAt pat (a ++ '\n' :: b) i) :
    (i + pat.length ≤ a.length ∧ occursAt pat a i) ∨
      (a.length + 1 ≤ i ∧ occursAt pat b (i - (a.length + 1))) := by
  rcases le_or_lt (i + pat.length) a.length with hle | hgt
  · exact Or.inl ⟨hle, (occursAt_append_left a _ hle).mp h⟩
  rcases le_or_lt (a.length + 1) i with hge | hlt
  · right
    refine ⟨hge, ?_⟩
    have hsplit : a.length + (i - a.length) = i := by omega
    have h2 : occursAt pat ('\n' :: b) (i - a.length) := by
      rw [← hsplit] at h
      exact (occursAt_append_right pat a ('\n' :: b) (i - a.length)).mp h
    have h3 := occursAt_cons_nl hne hnl h2
    have : i - a.length - 1 = i - (a.length + 1) := by omega
    rw [this] at h3
    exact h3.2
  · exfalso
    have hia : i ≤ a.length := by omega
    unfold occursAt at h
    rw [List.drop_append_of_le_length hia] at h
    have hlen : (a.drop i).length = a.length - i := List.length_drop i a
    have hsum : pat.length = (a.drop i).length + (pat.length - (a.length - i)) := by
      omega
    rw [hsum, List.take_append] at h
    obtain ⟨m, hm⟩ : ∃ m, pat.length - (a.length - i) = m + 1 := ⟨pat.length - (a.length - i) - 1, by omega⟩
    rw [hm, List.take_succ_cons] at h
    apply hnl
    rw [← h]
    exact List.mem_append_right _ (List.mem_cons_self _ _)

lemma occursIn_iff_B (pat s : Text) : occursIn pat s ↔ occursInB pat s = true := by
  unfold occursIn occursInB
  rw [List.any_eq_true]
  constructor
  · rintro ⟨i, hi⟩
    rcases le_or_lt i s.length with h | h
    · exact ⟨i, List.mem_range.mpr (by omega), (occursAtB_iff pat s i).mpr hi⟩
    · refine ⟨s.length, List.mem_range.mpr (by omega), (occursAtB_iff pat s s.length).mpr ?_⟩
      exact (occursAt_high (le_of_lt h)).mp hi
  · rintro ⟨i, _, hb⟩
    exact ⟨i, (occursAtB_iff pat s i).mp hb⟩

lemma not_occursIn_of_B {pat s : Text} (h : occursInB pat s = false) :
    ¬ occursIn pat s := by
  rw [occursIn_iff_B, h]
  simp

lemma findSub_some_iff (pat s : Text) (i : Nat) :
    findSub pat s = some i ↔ occursAt pat s i ∧ ∀ j < i, ¬ occursAt pat s j := by
  induction s generalizing i with
  | nil =>
    simp only [findSub]
    by_cases hp : pat = []
    · subst hp
      rw [if_pos rfl]
      constructor
      · intro h
        injection h with h
        subst h
        exact ⟨by simp [occursAt], by omega⟩
      · rintro ⟨-, h2⟩
        by_contra hne
        have hi : 0 < i := by
          rcases Nat.eq_zero_or_pos i with h | h
          · subst h; exact absurd rfl (fun hh => hne (congrArg some hh.symm ▸ rfl))
          · exact h
        exact h2 0 hi (by simp [occursAt])
    · rw [if_neg hp]
      constructor
      · intro h; cases h
      · rintro ⟨h1, -⟩
        unfold occursAt at h1
        simp only [List.drop_nil, List.take_nil] at h1
        exact absurd h1.symm hp
  | cons c rest ih =>
    simp only [findSub]
    by_cases h0 : occursAtB pat (c :: rest) 0
    · have h0p : occursAt pat (c :: rest) 0 := (occursAtB_iff pat (c :: rest) 0).mp h0
      rw [if_pos h0]
      constructor
      · intro h
        injection h with h
        subst h
        exact ⟨h0p, by omega⟩
      · rintro ⟨h1, h2⟩
        rcases Nat.eq_zero_or_pos i with hz | hpos
        · subst hz; rfl
        · exact absurd (h2 0 hpos) (by simp [h0p])
    · have h0p : ¬ occursAt pat (c :: rest) 0 := fun hh =>
        h0 ((occursAtB_iff pat (c :: rest) 0).mpr hh)
      rw [if_neg h0]
      constructor
      · intro h
        rcases Option.map_eq_some'.mp h with ⟨i0, hfs, hi⟩
        subst hi
        rcases (ih i0).mp hfs with ⟨h1, h2⟩
        refine ⟨(occursAt_cons_succ pat c rest i0).mpr h1, ?_⟩
        intro j hj
        cases j with
        | zero => exact h0p
        | succ j0 =>
          rw [occursAt_cons_succ]
          exact h2 j0 (by omega)
      · rintro ⟨h1, h2⟩
        cases i with
        | zero => exact absurd h1 h0p
        | succ i0 =>
          have h1r : occursAt pat rest i0 := (occursAt_cons_succ pat c rest i0).mp h1
          have h2r : ∀ j < i0, ¬ occursAt pat rest j := fun j hj hocc =>
            h2 (j + 1) (by omega) ((occursAt_cons_succ pat c rest j).mpr hocc)
          rw [(ih i0).mpr ⟨h1r, h2r⟩]
          rfl

lemma findSub_none_iff (pat s : Text) :
    findSub pat s = none ↔ ∀ i, ¬ occursAt pat s i := by
  induction s with
  | nil =>
    simp only [findSub]
    by_cases hp : pat = []
    · subst hp
      rw [if_pos rfl]
      constructor
      · intro h; cases h
      · intro h
        exact absurd (show occursAt [] [] 0 by simp [occursAt]) (h 0)
    · rw [if_neg hp]
      simp only [true_iff]
      intro i
      unfold occursAt
      simp only [List.drop_nil, List.take_nil]
      exact fun h => hp h.symm
  | cons c rest ih =>
    simp only [findSub]
    by_cases h0 : occursAtB pat (c :: rest) 0
    · have h0p : occursAt pat (c :: rest) 0 := (occursAtB_iff pat (c :: rest) 0).mp h0
      rw [if_pos h0]
      constructor
      · intro h; cases h
      · intro h; exact absurd h0p (h 0)
    · have h0p : ¬ occursAt pat (c :: rest) 0 := fun hh =>
        h0 ((occursAtB_iff pat (c :: rest) 0).mpr hh)
      rw [if_neg h0, Option.map_eq_none', ih]
      constructor
      · intro h i
        cases i with
        | zero => exact h0p
        | succ i0 =>
          rw [occursAt_cons_succ]
          exact h i0
      · intro h i
        have := h (i + 1)
        rwa [occursAt_cons_succ] at this

lemma findMatch_none_of_st {st en s : Text} (h : findSub st s = none) :
    findMatch st en s = none := by
  unfold findMatch
  rw [h]

lemma findMatch_none_of_en {st en s : Text} {i : Nat} (h1 : findSub st s = some i)
    (h2 : findSub en (s.drop (i + st.length)) = none) :
    findMatch st en s = none := by
  simp only [findMatch, h1, h2]

lemma findMatch_some_of {st en s : Text} {i j : Nat} (h1 : findSub st s = some i)
    (h2 : findSub en (s.drop (i + st.length)) = some j) :
    findMatch st en s = some (i, i + st.length + j + en.length) := by
  simp only [findMatch, h1, h2]

lemma findMatch_some_elim {st en s : Text} {i e : Nat}
    (h : findMatch st en s = some (i, e)) :
    findSub st s = some i ∧
      ∃ j, findSub en (s.drop (i + st.length)) = some j ∧
        e = i + st.length + j + en.length := by
  cases h1 : findSub st s with
  | none => rw [findMatch_none_of_st h1] at h; cases h
  | some i0 =>
    cases h2 : findSub en (s.drop (i0 + st.length)) with
    | none => rw [findMatch_none_of_en h1 h2] at h; cases h
    | some j =>
      rw [findMatch_some_of h1 h2] at h
      injection h with h
      rw [Prod.mk.injEq] at h
      obtain ⟨hi, he⟩ := h
      subst hi
      exact ⟨rfl, j, h2, he.symm⟩

lemma dropWhile_headD_false (l : Text) :
    isPyWS ((l.dropWhile isPyWS).headD 'x') = false := by
  induction l with
  | nil => decide
  | cons c t ih =>
    rw [List.dropWhile_cons]
    by_cases h : isPyWS c = true
    · rw [if_pos h]; exact ih
    · rw [if_neg h]
      simp only [List.headD]
      simpa using h

lemma dropWhile_eq_self_of_head {l : Text} (h : isPyWS (l.headD 'x') = false) :
    l.dropWhile isPyWS = l := by
  cases l with
  | nil => rfl
  | cons c t =>
    simp only [List.headD] at h
    rw [List.dropWhile_cons, h]
    simp

lemma getLast?_dropWhile (p : Char → Bool) (l : Text) :
    l.dropWhile p = [] ∨ (l.dropWhile p).getLast? = l.getLast? := by
  induction l with
  | nil => exact Or.inl rfl
  | cons c t ih =>
    rw [List.dropWhile_cons]
    by_cases h : p c = true
    · rw [if_pos h]
      rcases ih with h1 | h1
      · exact Or.inl h1
      · cases t with
        | nil => exact Or.inl rfl
        | cons t0 t1 =>
          right
          rw [h1, List.getLast?_cons_cons]
    · rw [if_neg h]
      exact Or.inr rfl

lemma pyStrip_headD (l : Text) : isPyWS ((pyStrip l).headD 'x') = false := by
  unfold pyStrip
  rcases getLast?_dropWhile isPyWS (l.dropWhile isPyWS).reverse with h | h
  · rw [h]; decide
  cases hBr : ((l.dropWhile isPyWS).reverse.dropWhile isPyWS).reverse with
  | nil => decide
  | cons c t =>
    simp only [List.headD]
    have h2 : ((l.dropWhile isPyWS).reverse.dropWhile isPyWS).reverse.head? =
        (l.dropWhile isPyWS).head? := by
      rw [List.head?_reverse, h, List.getLast?_reverse]
    rw [hBr] at h2
    have h3 := dropWhile_headD_false l
    cases hA : l.dropWhile isPyWS with
    | nil => rw [hA] at h2; cases h2
    | cons a t2 =>
      rw [hA] at h2 h3
      simp only [List.head?] at h2
      injection h2 with h2
      rw [h2]
      simpa using h3

lemma pyStrip_revHeadD (l : Text) :
    isPyWS ((pyStrip l).reverse.headD 'x') = false := by
  unfold pyStrip
  rw [List.reverse_reverse]
  exact dropWhile_headD_false (l.dropWhile isPyWS).reverse

lemma pyStrip_eq_self {l : Text} (h1 : isPyWS (l.headD 'x') = false)
    (h2 : isPyWS (l.reverse.headD 'x') = false) : pyStrip l = l := by
  unfold pyStrip
  rw [dropWhile_eq_self_of_head h1, dropWhile_eq_self_of_head h2,
    List.reverse_reverse]

lemma pyStrip_idem (l : Text) : pyStrip (pyStrip l) = pyStrip l :=
  pyStrip_eq_self (pyStrip_headD l) (pyStrip_revHeadD l)

lemma pyStrip_sublist (l : Text) : List.Sublist (pyStrip l) l := by
  unfold pyStrip
  have h1 : List.Sublist (l.dropWhile isPyWS) l := List.dropWhile_sublist _
  have h2 : List.Sublist ((l.dropWhile isPyWS).reverse.dropWhile isPyWS)
      (l.dropWhile isPyWS).reverse := List.dropWhile_sublist _
  have h3 := h2.reverse
  rw [List.reverse_reverse] at h3
  exact h3.trans h1

lemma dropWhile_append_of_all {p : Char → Bool} {a : Text} (b : Text)
    (h : ∀ c ∈ a, p c = true) : (a ++ b).dropWhile p = b.dropWhile p := by
  induction a with
  | nil => rfl
  | cons c t ih =>
    rw [List.cons_append, List.dropWhile_cons, if_pos (h c (List.mem_cons_self c t))]
    exact ih fun c2 hc2 => h c2 (List.mem_cons_of_mem c hc2)

lemma dropWhile_all_nil {p : Char → Bool} {w : Text}
    (h : ∀ c ∈ w, p c = true) : w.dropWhile p = [] := by
  induction w with
  | nil => rfl
  | cons c t ih =>
    rw [List.dropWhile_cons, if_pos (h c (List.mem_cons_self c t))]
    exact ih fun c2 hc2 => h c2 (List.mem_cons_of_mem c hc2)

lemma pyStrip_append_ws {l : Text} (h1 : isPyWS (l.headD 'x') = false)
    (h2 : isPyWS (l.reverse.headD 'x') = false) {w : Text}
    (hw : ∀ c ∈ w, isPyWS c = true) : pyStrip (l ++ w) = l := by
  cases l with
  | nil =>
    unfold pyStrip
    rw [List.nil_append, dropWhile_all_nil hw]
    rfl
  | cons c t =>
    unfold pyStrip
    have hfront : ((c :: t) ++ w).dropWhile isPyWS = (c :: t) ++ w := by
      simp only [List.headD] at h1
      rw [List.cons_append, List.dropWhile_cons, h1]
      simp
    rw [hfront, List.reverse_append,
      dropWhile_append_of_all _ (fun c2 hc2 => hw c2 (List.mem_reverse.mp hc2)),
      dropWhile_eq_self_of_head h2, List.reverse_reverse]

lemma subAllF_nil (st en : Text) (hst : st ≠ []) (f : Nat) :
    subAllF st en f [] = [] := by
  cases f with
  | zero => rfl
  | succ f0 =>
    have h : findSub st [] = none := by simp [findSub, hst]
    simp [subAllF, findMatch_none_of_st h]

lemma subAllF_fuel {st en : Text} (hst : st ≠ []) :
    ∀ f1 f2 s, s.length ≤ f1 → s.length ≤ f2 →
      subAllF st en f1 s = subAllF st en f2 s := by
  intro f1
  induction f1 with
  | zero =>
    intro f2 s h1 _
    have hs : s = [] := List.eq_nil_of_length_eq_zero (by omega)
    subst hs
    rw [subAllF_nil st en hst f2]
    rfl
  | succ f0 ih =>
    intro f2 s h1 h2
    cases f2 with
    | zero =>
      have hs : s = [] := List.eq_nil_of_length_eq_zero (by omega)
      subst hs
      rw [subAllF_nil st en hst (f0 + 1)]
      rfl
    | succ f3 =>
      simp only [subAllF]
      cases hm : findMatch st en s with
      | none => rfl
      | some p =>
        obtain ⟨i, e⟩ := p
        dsimp only
        by_cases hie : i < e
        · rw [if_pos hie, if_pos hie,
            ih f3 (s.drop e) (by rw [List.length_drop]; omega)
              (by rw [List.length_drop]; omega)]
        · rw [if_neg hie, if_neg hie]

lemma subAll_none {st en s : Text} (h : findMatch st en s = none) :
    subAll st en s = s := by
  unfold subAll
  cases hl : s.length with
  | zero => rfl
  | succ n => simp only [subAllF, h]

lemma subAll_step {st en s : Text} {i e : Nat} (hst : st ≠ [])
    (h : findMatch st en s = some (i, e)) (hie : i < e) :
    subAll st en s = s.take i ++ subAll st en (s.drop e) := by
  unfold subAll
  obtain ⟨h1, j, h2, he⟩ := findMatch_some_elim h
  have hocc := ((findSub_some_iff st s i).mp h1).1
  have hlen := occursAt_length hocc hst
  have hpos : 0 < st.length := List.length_pos.mpr hst
  obtain ⟨n, hn⟩ : ∃ n, s.length = n + 1 := ⟨s.length - 1, by omega⟩
  rw [hn]
  simp only [subAllF, h]
  rw [if_pos hie]
  congr 1
  exact subAllF_fuel hst n (s.drop e).length (s.drop e)
    (by rw [List.length_drop]; omega) le_rfl

lemma take_sub_take {i e : Nat} (s : Text) (h : i ≤ e) :
    List.Sublist (s.take i) (s.take e) := by
  have h2 := List.take_sublist i (s.take e)
  rwa [List.take_take, min_eq_left h] at h2

lemma subAllF_sublist (st en : Text) :
    ∀ f s, List.Sublist (subAllF st en f s) s := by
  intro f
  induction f with
  | zero => intro s; exact List.Sublist.refl s
  | succ f0 ih =>
    intro s
    simp only [subAllF]
    cases hm : findMatch st en s with
    | none => exact List.Sublist.refl s
    | some p =>
      obtain ⟨i, e⟩ := p
      dsimp only
      by_cases hie : i < e
      · rw [if_pos hie]
        have h1 : List.Sublist (s.take i ++ subAllF st en f0 (s.drop e))
            (s.take e ++ s.drop e) :=
          (take_sub_take s (le_of_lt hie)).append (ih (s.drop e))
        rwa [List.take_append_drop] at h1
      · rw [if_neg hie]

lemma subAll_sublist (st en s : Text) : List.Sublist (subAll st en s) s :=
  subAllF_sublist st en s.length s

lemma merge_no_match {d g : Text} {m : Markers}
    (h : find_existing_section m (pyStrip d) = none) :
    merge d g m =
      if pyStrip d = [] then wrapBlock m g
      else pyStrip d ++ sepNL ++ wrapBlock m g := by
  unfold merge update_shell_config
  simp only [h, Option.isSome_none, Bool.false_eq_true, if_false]

lemma merge_match {d g : Text} {m : Markers} {p : Nat × Nat}
    (h : find_existing_section m (pyStrip d) = some p) :
    merge d g m =
      if remove_existing_section m (pyStrip d) = [] then wrapBlock m g
      else remove_existing_section m (pyStrip d) ++ sepNL ++ wrapBlock m g := by
  unfold merge update_shell_config
  simp only [h, Option.isSome_some, if_true]

lemma merge_residual (d g : Text) (m : Markers) :
    ∃ r, List.Sublist r d ∧
      merge d g m =
        (if r = [] then wrapBlock m g else r ++ sepNL ++ wrapBlock m g) := by
  cases h : find_existing_section m (pyStrip d) with
  | none => exact ⟨pyStrip d, pyStrip_sublist d, merge_no_match h⟩
  | some p =>
    refine ⟨remove_existing_section m (pyStrip d), ?_, merge_match h⟩
    unfold remove_existing_section
    exact ((pyStrip_sublist _).trans (subAll_sublist _ _ _)).trans (pyStrip_sublist d)

lemma merge_eq_append_wrap (d g : Text) (m : Markers) :
    ∃ q, merge d g m = q ++ wrapBlock m g := by
  obtain ⟨r, -, hr⟩ := merge_residual d g m
  by_cases h : r = []
  · rw [hr, if_pos h]
    exact ⟨[], rfl⟩
  · rw [hr, if_neg h]
    exact ⟨r ++ sepNL, by rw [List.append_assoc]⟩


lemma headD_append {a : Text} (hne : a ≠ []) (b : Text) :
    (a ++ b).headD 'x' = a.headD 'x' := by
  cases a with
  | nil => exact absurd rfl hne
  | cons c t => simp

lemma occursAt_self (pat : Text) : occursAt pat pat 0 := by
  unfold occursAt
  rw [List.drop_zero, List.take_length]

lemma occursAt_append_at_length (pat a : Text) : occursAt pat (a ++ pat) a.length := by
  have h := (occursAt_append_right pat a pat 0).mpr (occursAt_self pat)
  simpa using h

lemma findSub_some_of_occursIn {pat s : Text} (h : occursIn pat s) :
    ∃ i, findSub pat s = some i := by
  cases hf : findSub pat s with
  | none =>
    obtain ⟨i, hi⟩ := h
    exact absurd hi ((findSub_none_iff pat s).mp hf i)
  | some i => exact ⟨i, rfl⟩

lemma findSub_min {pat s : Text} {i : Nat} (h : findSub pat s = some i)
    {j : Nat} (hj : occursAt pat s j) : i ≤ j := by
  by_contra hc
  exact ((findSub_some_iff pat s i).mp h).2 j (by omega) hj

lemma occursAt_wrap_start (m : Markers) (g : Text) :
    occursAt m.start (wrapBlock m g) 0 := by
  unfold occursAt wrapBlock
  rw [List.drop_zero, List.take_left]

lemma wrapBlock_eq_append_stop (m : Markers) (g : Text) :
    wrapBlock m g = (m.start ++ '\n' :: (g ++ ['\n'])) ++ m.stop := by
  unfold wrapBlock
  simp

lemma wrapBlock_length (m : Markers) (g : Text) :
    (wrapBlock m g).length = m.start.length + 1 + g.length + 1 + m.stop.length := by
  unfold wrapBlock
  simp
  omega

lemma occursAt_wrap_stop (m : Markers) (g : Text) :
    occursAt m.stop (wrapBlock m g) (m.start.length + 1 + g.length + 1) := by
  rw [wrapBlock_eq_append_stop]
  have hlen : (m.start ++ '\n' :: (g ++ ['\n'])).length =
      m.start.length + 1 + g.length + 1 := by
    simp
    omega
  rw [← hlen]
  exact occursAt_append_at_length m.stop _

lemma occursAt_wrap_elim {pat : Text} (hne : pat ≠ []) (hnl : '\n' ∉ pat)
    {m : Markers} {g : Text} {i : Nat} (h : occursAt pat (wrapBlock m g) i) :
    (i + pat.length ≤ m.start.length ∧ occursAt pat m.start i) ∨
    (m.start.length + 1 ≤ i ∧ i + pat.length ≤ m.start.length + 1 + g.length ∧
      occursAt pat g (i - (m.start.length + 1))) ∨
    (m.start.length + 1 + g.length + 1 ≤ i ∧
      occursAt pat m.stop (i - (m.start.length + 1 + g.length + 1))) := by
  unfold wrapBlock at h
  rcases occursAt_append_nl hne hnl h with ⟨ha, hb⟩ | ⟨ha, hb⟩
  · exact Or.inl ⟨ha, hb⟩
  · rcases occursAt_append_nl hne hnl hb with ⟨hc, hd⟩ | ⟨hc, hd⟩
    · refine Or.inr (Or.inl ⟨ha, by omega, ?_⟩)
      exact hd
    · refine Or.inr (Or.inr ⟨by omega, ?_⟩)
      have harith : i - (m.start.length + 1) - (g.length + 1) =
          i - (m.start.length + 1 + g.length + 1) := by omega
      rwa [harith] at hd

lemma sep_append_cons (s0 w : Text) :
    s0 ++ sepNL ++ w = s0 ++ '\n' :: ('\n' :: w) := by
  simp [sepNL]

lemma occursAt_sep_elim {pat : Text} (hne : pat ≠ []) (hnl : '\n' ∉ pat)
    {s0 w : Text} {i : Nat} (h : occursAt pat (s0 ++ sepNL ++ w) i) :
    (i + pat.length ≤ s0.length ∧ occursAt pat s0 i) ∨
    (s0.length + 2 ≤ i ∧ occursAt pat w (i - (s0.length + 2))) := by
  rw [sep_append_cons] at h
  rcases occursAt_append_nl hne hnl h with ⟨ha, hb⟩ | ⟨ha, hb⟩
  · exact Or.inl ⟨ha, hb⟩
  · obtain ⟨h1, h2⟩ := occursAt_cons_nl hne hnl hb
    refine Or.inr ⟨by omega, ?_⟩
    have harith : i - (s0.length + 1) - 1 = i - (s0.length + 2) := by omega
    rwa [harith] at h2

lemma findSub_en_tail {en g1 : Text} (hen : en ≠ []) (henn : '\n' ∉ en)
    (hg1 : ¬ occursIn en g1) :
    findSub en ('\n' :: (g1 ++ '\n' :: en)) = some (g1.length + 2) := by
  apply (findSub_some_iff _ _ _).mpr
  constructor
  · have hre : ('\n' :: (g1 ++ '\n' :: en) : Text) =
        ('\n' :: (g1 ++ ['\n'])) ++ en := by simp
    rw [hre]
    have hlen : (('\n' :: (g1 ++ ['\n'])) : Text).length = g1.length + 2 := by
      simp
    rw [← hlen]
    exact occursAt_append_at_length en _
  · intro j hj hocc
    obtain ⟨h1, h2⟩ := occursAt_cons_nl hen henn hocc
    rcases occursAt_append_nl hen henn h2 with ⟨ha, hb⟩ | ⟨ha, hb⟩
    · exact hg1 ⟨j - 1, hb⟩
    · omega

lemma wrap_headD (m : Markers) (g1 : Text) (hst : m.start ≠ [])
    (hsw : isPyWS (m.start.headD 'x') = false) :
    isPyWS ((wrapBlock m g1).headD 'x') = false := by
  unfold wrapBlock
  rw [headD_append hst]
  exact hsw

lemma wrap_lastD (m : Markers) (g1 : Text) (hen : m.stop ≠ [])
    (hew : isPyWS (m.stop.reverse.headD 'x') = false) :
    isPyWS ((wrapBlock m g1).reverse.headD 'x') = false := by
  rw [wrapBlock_eq_append_stop, List.reverse_append,
    headD_append (by simpa using hen)]
  exact hew

lemma findMatch_wrap (m : Markers) (g1 : Text) (hen : m.stop ≠ [])
    (henn : '\n' ∉ m.stop) (hg1 : ¬ occursIn m.stop g1) :
    findMatch m.start m.stop (wrapBlock m g1) =
      some (0, (wrapBlock m g1).length) := by
  have hfs : findSub m.start (wrapBlock m g1) = some 0 :=
    (findSub_some_iff _ _ _).mpr
      ⟨occursAt_wrap_start m g1, fun j hj => absurd hj (Nat.not_lt_zero j)⟩
  have hdrop : (wrapBlock m g1).drop (0 + m.start.length) =
      '\n' :: (g1 ++ '\n' :: m.stop) := by
    unfold wrapBlock
    rw [Nat.zero_add]
    exact List.drop_left m.start _
  have hfe : findSub m.stop ((wrapBlock m g1).drop (0 + m.start.length)) =
      some (g1.length + 2) := by
    rw [hdrop]
    exact findSub_en_tail hen henn hg1
  rw [findMatch_some_of hfs hfe]
  congr 1
  rw [Prod.mk.injEq]
  refine ⟨rfl, ?_⟩
  rw [wrapBlock_length]
  omega

lemma findMatch_assemble (m : Markers) (s0 g1 : Text)
    (hst : m.start ≠ []) (hen : m.stop ≠ [])
    (hstn : '\n' ∉ m.start) (henn : '\n' ∉ m.stop)
    (h1 : ¬ occursIn m.start s0) (hg1 : ¬ occursIn m.stop g1) :
    findMatch m.start m.stop (s0 ++ sepNL ++ wrapBlock m g1) =
      some (s0.length + 2, (s0 ++ sepNL ++ wrapBlock m g1).length) := by
  have hocc : occursAt m.start (s0 ++ sepNL ++ wrapBlock m g1) (s0.length + 2) := by
    have h2 := (occursAt_append_right m.start (s0 ++ sepNL) (wrapBlock m g1) 0).mpr
      (occursAt_wrap_start m g1)
    have hlen : (s0 ++ sepNL).length + 0 = s0.length + 2 := by simp [sepNL]
    rwa [hlen] at h2
  have hfirst : ∀ j < s0.length + 2, ¬ occursAt m.start (s0 ++ sepNL ++ wrapBlock m g1) j := by
    intro j hj hocc2
    rcases occursAt_sep_elim hst hstn hocc2 with ⟨ha, hb⟩ | ⟨ha, hb⟩
    · exact h1 ⟨j, hb⟩
    · omega
  have hfs : findSub m.start (s0 ++ sepNL ++ wrapBlock m g1) = some (s0.length + 2) :=
    (findSub_some_iff _ _ _).mpr ⟨hocc, hfirst⟩
  have hre : s0 ++ sepNL ++ wrapBlock m g1 =
      (s0 ++ sepNL ++ m.start) ++ ('\n' :: (g1 ++ '\n' :: m.stop)) := by
    unfold wrapBlock
    simp
  have hlen2 : (s0 ++ sepNL ++ m.start).length = s0.length + 2 + m.start.length := by
    simp [sepNL]
    omega
  have hdrop : (s0 ++ sepNL ++ wrapBlock m g1).drop (s0.length + 2 + m.start.length) =
      '\n' :: (g1 ++ '\n' :: m.stop) := by
    rw [hre, ← hlen2, List.drop_left]
  have hfe : findSub m.stop
      ((s0 ++ sepNL ++ wrapBlock m g1).drop (s0.length + 2 + m.start.length)) =
      some (g1.length + 2) := by
    rw [hdrop]
    exact findSub_en_tail hen henn hg1
  rw [findMatch_some_of hfs hfe]
  congr 1
  rw [Prod.mk.injEq]
  refine ⟨rfl, ?_⟩
  rw [sep_append_cons]
  simp [wrapBlock]
  omega

lemma sepNL_all_ws : ∀ c ∈ sepNL, isPyWS c = true := by
  intro c hc
  simp [sepNL] at hc
  subst hc
  decide

lemma merge_clean (m : Markers) (s0 g1 g2 : Text)
    (hst : m.start ≠ []) (hen : m.stop ≠ [])
    (hstn : '\n' ∉ m.start) (henn : '\n' ∉ m.stop)
    (hsw : isPyWS (m.start.headD 'x') = false)
    (hew : isPyWS (m.stop.reverse.headD 'x') = false)
    (hs0h : isPyWS (s0.headD 'x') = false)
    (hs0l : isPyWS (s0.reverse.headD 'x') = false)
    (h1 : ¬ occursIn m.start s0)
    (hg1 : ¬ occursIn m.stop g1) :
    merge (assemble m s0 g1) g2 m = assemble m s0 g2 := by
  by_cases hs0 : s0 = []
  · subst hs0
    have hd1 : assemble m [] g1 = wrapBlock m g1 := by
      unfold assemble
      rw [if_pos rfl]
    rw [hd1]
    have hstrip : pyStrip (wrapBlock m g1) = wrapBlock m g1 :=
      pyStrip_eq_self (wrap_headD m g1 hst hsw) (wrap_lastD m g1 hen hew)
    have hfm := findMatch_wrap m g1 hen henn hg1
    have hfind : find_existing_section m (pyStrip (wrapBlock m g1)) =
        some (0, (wrapBlock m g1).length) := by
      rw [hstrip]
      exact hfm
    rw [merge_match hfind]
    have hwpos : 0 < (wrapBlock m g1).length := by
      rw [wrapBlock_length]
      have := List.length_pos.mpr hst
      omega
    have hsub : subAll m.start m.stop (wrapBlock m g1) = [] := by
      rw [subAll_step hst hfm hwpos, List.take_zero, List.drop_length]
      rfl
    have hrem : remove_existing_section m (pyStrip (wrapBlock m g1)) = [] := by
      rw [hstrip]
      unfold remove_existing_section
      rw [hsub]
      rfl
    rw [hrem, if_pos rfl]
    unfold assemble
    rw [if_pos rfl]
  · have hd1 : assemble m s0 g1 = s0 ++ sepNL ++ wrapBlock m g1 := by
      unfold assemble
      rw [if_neg hs0]
    rw [hd1]
    have hstrip : pyStrip (s0 ++ sepNL ++ wrapBlock m g1) =
        s0 ++ sepNL ++ wrapBlock m g1 := by
      apply pyStrip_eq_self
      · rw [List.append_assoc, headD_append hs0]
        exact hs0h
      · rw [wrapBlock_eq_append_stop, ← List.append_assoc, List.reverse_append,
          headD_append (by simpa using hen)]
        exact hew
    have hfm := findMatch_assemble m s0 g1 hst hen hstn henn h1 hg1
    have hfind : find_existing_section m (pyStrip (s0 ++ sepNL ++ wrapBlock m g1)) =
        some (s0.length + 2, (s0 ++ sepNL ++ wrapBlock m g1).length) := by
      rw [hstrip]
      exact hfm
    rw [merge_match hfind]
    have hlt : s0.length + 2 < (s0 ++ sepNL ++ wrapBlock m g1).length := by
      rw [sep_append_cons]
      simp [wrapBlock]
    have hsublen : s0.length + 2 = (s0 ++ sepNL).length := by
      simp [sepNL]
    have hsub : subAll m.start m.stop (s0 ++ sepNL ++ wrapBlock m g1) =
        s0 ++ sepNL := by
      rw [subAll_step hst hfm hlt, List.drop_length, hsublen, List.take_left]
      rw [show subAll m.start m.stop [] = [] from rfl, List.append_nil]
    have hrem : remove_existing_section m (pyStrip (s0 ++ sepNL ++ wrapBlock m g1)) =
        s0 := by
      rw [hstrip]
      unfold remove_existing_section
      rw [hsub]
      exact pyStrip_append_ws hs0h hs0l sepNL_all_ws
    rw [hrem, if_neg hs0]
    unfold assemble
    rw [if_neg hs0]

lemma occursAt_self_zero {pat : Text} (hne : pat ≠ []) {k : Nat}
    (h : occursAt pat pat k) : k = 0 := by
  have h2 := occursAt_length h hne
  have h3 := List.length_pos.mpr hne
  omega

lemma merge_of_no_start {d g : Text} {m : Markers}
    (h : ¬ occursIn m.start (pyStrip d)) :
    merge d g m = assemble m (pyStrip d) g := by
  have hfs : findSub m.start (pyStrip d) = none :=
    (findSub_none_iff _ _).mpr fun i hi => h ⟨i, hi⟩
  rw [merge_no_match (findMatch_none_of_st hfs)]
  unfold assemble
  rfl

lemma unique_start_assemble {m : Markers} {s0 g2 : Text}
    (hst : m.start ≠ []) (hstn : '\n' ∉ m.start)
    (h1 : ¬ occursIn m.start s0) (hg2 : ¬ occursIn m.start g2)
    (hsten : ¬ occursIn m.start m.stop) :
    uniqueOcc m.start (assemble m s0 g2) := by
  by_cases hs0 : s0 = []
  · subst hs0
    unfold assemble
    rw [if_pos rfl]
    refine ⟨0, occursAt_wrap_start m g2, ?_⟩
    intro j hj
    rcases occursAt_wrap_elim hst hstn hj with ⟨ha, hb⟩ | ⟨-, -, hb⟩ | ⟨-, hb⟩
    · exact occursAt_self_zero hst hb
    · exact absurd ⟨_, hb⟩ hg2
    · exact absurd ⟨_, hb⟩ hsten
  · unfold assemble
    rw [if_neg hs0]
    refine ⟨s0.length + 2, ?_, ?_⟩
    · have h2 := (occursAt_append_right m.start (s0 ++ sepNL) (wrapBlock m g2) 0).mpr
        (occursAt_wrap_start m g2)
      have hlen : (s0 ++ sepNL).length + 0 = s0.length + 2 := by simp [sepNL]
      rwa [hlen] at h2
    · intro j hj
      rcases occursAt_sep_elim hst hstn hj with ⟨-, hb⟩ | ⟨ha, hb⟩
      · exact absurd ⟨_, hb⟩ h1
      · rcases occursAt_wrap_elim hst hstn hb with ⟨-, hc⟩ | ⟨-, -, hc⟩ | ⟨-, hc⟩
        · have := occursAt_self_zero hst hc
          omega
        · exact absurd ⟨_, hc⟩ hg2
        · exact absurd ⟨_, hc⟩ hsten

lemma unique_stop_assemble {m : Markers} {s0 g2 : Text}
    (hen : m.stop ≠ []) (henn : '\n' ∉ m.stop)
    (h2 : ¬ occursIn m.stop s0) (hg2 : ¬ occursIn m.stop g2)
    (henst : ¬ occursIn m.stop m.start) :
    uniqueOcc m.stop (assemble m s0 g2) := by
  by_cases hs0 : s0 = []
  · subst hs0
    unfold assemble
    rw [if_pos rfl]
    refine ⟨m.start.length + 1 + g2.length + 1, occursAt_wrap_stop m g2, ?_⟩
    intro j hj
    rcases occursAt_wrap_elim hen henn hj with ⟨-, hb⟩ | ⟨-, -, hb⟩ | ⟨ha, hb⟩
    · exact absurd ⟨_, hb⟩ henst
    · exact absurd ⟨_, hb⟩ hg2
    · have := occursAt_self_zero hen hb
      omega
  · unfold assemble
    rw [if_neg hs0]
    refine ⟨s0.length + 2 + (m.start.length + 1 + g2.length + 1), ?_, ?_⟩
    · have hw := (occursAt_append_right m.stop (s0 ++ sepNL) (wrapBlock m g2)
        (m.start.length + 1 + g2.length + 1)).mpr (occursAt_wrap_stop m g2)
      have hlen : (s0 ++ sepNL).length + (m.start.length + 1 + g2.length + 1) =
          s0.length + 2 + (m.start.length + 1 + g2.length + 1) := by simp [sepNL]
      rwa [hlen] at hw
    · intro j hj
      rcases occursAt_sep_elim hen henn hj with ⟨-, hb⟩ | ⟨ha, hb⟩
      · exact absurd ⟨_, hb⟩ h2
      · rcases occursAt_wrap_elim hen henn hb with ⟨-, hc⟩ | ⟨-, -, hc⟩ | ⟨hc1, hc⟩
        · exact absurd ⟨_, hc⟩ henst
        · exact absurd ⟨_, hc⟩ hg2
        · have := occursAt_self_zero hen hc
          omega

lemma not_occursIn_assemble {pat : Text} (hne : pat ≠ []) (hnl : '\n' ∉ pat)
    {m : Markers} {s0 g2 : Text}
    (h0 : ¬ occursIn pat s0) (hstp : ¬ occursIn pat m.start)
    (hg : ¬ occursIn pat g2) (henp : ¬ occursIn pat m.stop) :
    ¬ occursIn pat (assemble m s0 g2) := by
  rintro ⟨i, hi⟩
  by_cases hs0 : s0 = []
  · subst hs0
    unfold assemble at hi
    rw [if_pos rfl] at hi
    rcases occursAt_wrap_elim hne hnl hi with ⟨-, hb⟩ | ⟨-, -, hb⟩ | ⟨-, hb⟩
    · exact hstp ⟨_, hb⟩
    · exact hg ⟨_, hb⟩
    · exact henp ⟨_, hb⟩
  · unfold assemble at hi
    rw [if_neg hs0] at hi
    rcases occursAt_sep_elim hne hnl hi with ⟨-, hb⟩ | ⟨-, hb⟩
    · exact h0 ⟨_, hb⟩
    · rcases occursAt_wrap_elim hne hnl hb with ⟨-, hc⟩ | ⟨-, -, hc⟩ | ⟨-, hc⟩
      · exact hstp ⟨_, hc⟩
      · exact hg ⟨_, hc⟩
      · exact henp ⟨_, hc⟩

lemma findMatch_append_wrap (m : Markers) (g q : Text) :
    ∃ p, findMatch m.start m.stop (q ++ wrapBlock m g) = some p := by
  have hst0 : occursAt m.start (q ++ wrapBlock m g) q.length := by
    have h := (occursAt_append_right m.start q (wrapBlock m g) 0).mpr
      (occursAt_wrap_start m g)
    simpa using h
  obtain ⟨i0, hi0⟩ := findSub_some_of_occursIn ⟨q.length, hst0⟩
  have hi0le : i0 ≤ q.length := findSub_min hi0 hst0
  have hstop : occursAt m.stop (q ++ wrapBlock m g)
      (q.length + (m.start.length + 1 + g.length + 1)) :=
    (occursAt_append_right m.stop q (wrapBlock m g)
      (m.start.length + 1 + g.length + 1)).mpr (occursAt_wrap_stop m g)
  have hP : occursAt m.stop ((q ++ wrapBlock m g).drop (i0 + m.start.length))
      (q.length + (m.start.length + 1 + g.length + 1) - (i0 + m.start.length)) := by
    rw [occursAt_drop_iff]
    have harith : i0 + m.start.length +
        (q.length + (m.start.length + 1 + g.length + 1) - (i0 + m.start.length)) =
        q.length + (m.start.length + 1 + g.length + 1) := by omega
    rw [harith]
    exact hstop
  obtain ⟨j, hj⟩ := findSub_some_of_occursIn ⟨_, hP⟩
  exact ⟨_, findMatch_some_of hi0 hj⟩

/-- C9: for the empty document the merge result is exactly the wrapped
block alone, `start ++ "\n" ++ g ++ "\n" ++ end`, with no leading
separator — for every generated body and every marker pair. -/
theorem c9_empty_document (g : Text) (m : Markers) :
    merge [] g m = wrapBlock m g := by
  have hnil : pyStrip ([] : Text) = [] := rfl
  cases hf : find_existing_section m (pyStrip ([] : Text)) with
  | none =>
    rw [merge_no_match hf, hnil]
    simp
  | some p =>
    rw [merge_match hf]
    have hrem : remove_existing_section m (pyStrip ([] : Text)) = [] := rfl
    rw [hrem]
    simp

/-- C2, amended: after every merge the result does contain a
ManagedBlock (the regex search of `find_existing_section` succeeds on
the output), and the output is a residual followed by the wrapped block
where the residual is a subsequence of the original document — merge
never invents or reorders characters outside the new block.  The
preservation guarantee of the claim holds only in this weakened form:
characters inside removed spans and whitespace trimmed at the ends are
dropped (see the counterexample). -/
theorem c2_block_and_preservation (d g : Text) (m : Markers) :
    (∃ p, find_existing_section m (merge d g m) = some p) ∧
    ∃ r, List.Sublist r d ∧
      merge d g m =
        (if r = [] then wrapBlock m g else r ++ sepNL ++ wrapBlock m g) := by
  refine ⟨?_, merge_residual d g m⟩
  obtain ⟨q, hq⟩ := merge_eq_append_wrap d g m
  rw [hq]
  unfold find_existing_section
  exact findMatch_append_wrap m g q

/-- C2, counterexample to the claim as stated: the document consisting
of a single space contains no ManagedBlock, so all of its characters lie
outside any prior ManagedBlock, yet the space does not appear in the
merge result (it is trimmed), so the original characters outside the
block are not all preserved. -/
theorem c2_counterexample :
    find_existing_section ⟨['S'], ['E']⟩ [' '] = none ∧
    ¬ List.Sublist [' '] (merge [' '] ['a'] ⟨['S'], ['E']⟩) := by
  constructor
  · decide
  · intro h
    have hmem : (' ' : Char) ∈ ([' '] : Text) := by decide
    have h2 : (' ' : Char) ∈ merge [' '] ['a'] ⟨['S'], ['E']⟩ := h.subset hmem
    exact absurd h2 (by decide)

/-- C7, amended: for a document whose trimmed content contains no
ManagedBlock, the merge output is the trimmed content, a blank-line
separator, then the wrapped block — except that when the trimmed content
is empty the output is the wrapped block alone, with no separator. -/
theorem c7_preservation (d g : Text) (m : Markers)
    (h : find_existing_section m (pyStrip d) = none) :
    merge d g m =
      if pyStrip d = [] then wrapBlock m g
      else pyStrip d ++ sepNL ++ wrapBlock m g :=
  merge_no_match h

/-- C7 witness: a concrete no-block document. -/
theorem c7_witness :
    merge "x".data ['a'] ⟨['S'], ['E']⟩ =
      if pyStrip "x".data = [] then wrapBlock ⟨['S'], ['E']⟩ ['a']
      else pyStrip "x".data ++ sepNL ++ wrapBlock ⟨['S'], ['E']⟩ ['a'] :=
  c7_preservation "x".data ['a'] ⟨['S'], ['E']⟩ (by decide)

/-- C7, counterexample to the claim as stated: the empty document has no
prior ManagedBlock, but the output is the wrapped block alone, not the
trimmed content followed by a blank-line separator and the block. -/
theorem c7_counterexample :
    find_existing_section ⟨['S'], ['E']⟩ (pyStrip []) = none ∧
    merge [] ['a'] ⟨['S'], ['E']⟩ ≠
      pyStrip [] ++ sepNL ++ wrapBlock ⟨['S'], ['E']⟩ ['a'] := by
  constructor
  · decide
  · decide

/-- C8, counterexample: the source defines no `InvalidMarkerError` and
performs no marker validation; called with an empty start marker the
merge runs to completion and produces ordinary output instead of
raising. -/
theorem c8_counterexample :
    merge "x".data ['a'] ⟨[], ['E']⟩ = "x\n\n\na\nE".data := by decide

/-- C8, amended: the shipped constructor hard-codes both markers to the
non-empty string "## local-helpers", so the empty-marker case cannot
arise in the shipped configuration; the merge itself performs no
validation and, invoked with an empty marker, still returns a merged
text. -/
theorem c8_no_validation :
    shippedMarkers.start ≠ [] ∧ shippedMarkers.stop ≠ [] ∧
    merge [] ['a'] ⟨[], ['E']⟩ = wrapBlock ⟨[], ['E']⟩ ['a'] ∧
    merge [] ['a'] ⟨['S'], []⟩ = wrapBlock ⟨['S'], []⟩ ['a'] := by
  refine ⟨by decide, by decide, by decide, by decide⟩

/-- C5, amended: the merge output always ends with the end marker, and
every occurrence of the start marker that fits a full start-plus-end
inside the output is followed by an occurrence of the end marker at or
after its end.  (A start occurrence can overlap the trailing end marker
when the start string is a proper part of the end string — see the
counterexample — which is why the length side condition is needed.) -/
theorem c5_no_partial_markers (d g : Text) (m : Markers) :
    (∃ q, merge d g m = q ++ m.stop) ∧
    ∀ i, occursAt m.start (merge d g m) i →
      i + m.start.length + m.stop.length ≤ (merge d g m).length →
      ∃ j, i + m.start.length ≤ j ∧ occursAt m.stop (merge d g m) j := by
  obtain ⟨q, hq⟩ := merge_eq_append_wrap d g m
  have hsplit : merge d g m =
      (q ++ (m.start ++ '\n' :: (g ++ ['\n']))) ++ m.stop := by
    rw [hq, wrapBlock_eq_append_stop]
    simp
  constructor
  · exact ⟨_, hsplit⟩
  · intro i hocc hlen
    have hocc2 : occursAt m.stop (merge d g m)
        ((q ++ (m.start ++ '\n' :: (g ++ ['\n']))).length) := by
      rw [hsplit]
      exact occursAt_append_at_length m.stop _
    refine ⟨(q ++ (m.start ++ '\n' :: (g ++ ['\n']))).length, ?_, hocc2⟩
    have hlen2 : (merge d g m).length =
        (q ++ (m.start ++ '\n' :: (g ++ ['\n']))).length + m.stop.length := by
      rw [hsplit]
      simp
      omega
    omega

/-- C5 witness: a concrete merge output in which the single interior
start marker is indeed followed by an end marker. -/
theorem c5_witness :
    ∃ j, 3 + (['S'] : Text).length ≤ j ∧
      occursAt ['E'] (merge "x".data ['a'] ⟨['S'], ['E']⟩) j :=
  (c5_no_partial_markers "x".data ['a'] ⟨['S'], ['E']⟩).2 3 (by decide) (by decide)

/-- C5, counterexample to the claim as stated: with start marker "B" and
end marker "Bx" the output of the merge on the empty document is
"B\na\nBx", whose occurrence of "B" at index 4 (the first character of
the closing "Bx") has no occurrence of "Bx" at or after its end, so not
every start occurrence is paired with a following end marker. -/
theorem c5_counterexample :
    occursAt "B".data (merge [] ['a'] ⟨"B".data, "Bx".data⟩) 4 ∧
    ∀ j, 4 + ("B".data : Text).length ≤ j →
      ¬ occursAt "Bx".data (merge [] ['a'] ⟨"B".data, "Bx".data⟩) j := by
  constructor
  · decide
  · intro j hj hocc
    have hle := occursAt_length hocc (by decide)
    have hlen : (merge [] ['a'] ⟨"B".data, "Bx".data⟩).length = 6 := by decide
    have h1 : ("Bx".data : Text).length = 2 := by decide
    have h2 : ("B".data : Text).length = 1 := by decide
    omega

/-- C3, counterexample to the claim as stated: in a document with two
marker-delimited spans the merge does NOT leave the later span in place:
`re.sub` removes every non-overlapping match, so the character `b` of the
second span is gone from the output. -/
theorem c3_counterexample :
    ('b' ∈ ("S a E S b E".data : Text)) ∧
    merge "S a E S b E".data ['c'] ⟨['S'], ['E']⟩ = "S\nc\nE".data ∧
    'b' ∉ merge "S a E S b E".data ['c'] ⟨['S'], ['E']⟩ := by
  refine ⟨by decide, by decide, by decide⟩

/-- C3, amended: the removal step deletes the first matched span and
then continues on the text after it, removing every further
non-overlapping matched span as well, rather than removing only the
first: `subAll` satisfies the `re.sub` recursion. -/
theorem c3_removes_all_matches {st en s : Text} {i e : Nat} (hst : st ≠ [])
    (h : findMatch st en s = some (i, e)) :
    i < e ∧ subAll st en s = s.take i ++ subAll st en (s.drop e) := by
  obtain ⟨h1, j, h2, he⟩ := findMatch_some_elim h
  have hpos := List.length_pos.mpr hst
  have hie : i < e := by omega
  exact ⟨hie, subAll_step hst h hie⟩

/-- C3 witness: the two-block document, whose first matched span is
removed and whose remainder is then processed again. -/
theorem c3_witness :
    0 < 5 ∧ subAll ['S'] ['E'] "S a E S b E".data =
      ("S a E S b E".data : Text).take 0 ++
        subAll ['S'] ['E'] (("S a E S b E".data : Text).drop 5) :=
  @c3_removes_all_matches ['S'] ['E'] ("S a E S b E".data) 0 5 (by decide) (by decide)

/-- C4: when the trimmed document contains the start marker (first
occurrence at `i`) but no end marker anywhere at or after the end of
that occurrence, the section is treated as absent: nothing is removed
and the merge appends a fresh well-formed wrapped block after the
trimmed original text instead of truncating it. -/
theorem c4_unmatched_start (d g : Text) (m : Markers) (i : Nat)
    (hst : m.start ≠ [])
    (hocc : occursAt m.start (pyStrip d) i)
    (hfirst : ∀ j < i, ¬ occursAt m.start (pyStrip d) j)
    (hnoen : ¬ occursIn m.stop ((pyStrip d).drop (i + m.start.length))) :
    merge d g m = pyStrip d ++ sepNL ++ wrapBlock m g := by
  have h1 : findSub m.start (pyStrip d) = some i :=
    (findSub_some_iff _ _ _).mpr ⟨hocc, hfirst⟩
  have h2 : findSub m.stop ((pyStrip d).drop (i + m.start.length)) = none :=
    (findSub_none_iff _ _).mpr fun k hk => hnoen ⟨k, hk⟩
  have h3 : find_existing_section m (pyStrip d) = none := by
    unfold find_existing_section
    exact findMatch_none_of_en h1 h2
  rw [merge_no_match h3, if_neg]
  intro hnil
  rw [hnil] at hocc
  have h4 := occursAt_length hocc hst
  have h5 := List.length_pos.mpr hst
  rw [List.length_nil] at h4
  omega

/-- C4 witness: "S x" contains the start marker "S" with no end marker
after it; the merge appends a fresh block after the unmodified text. -/
theorem c4_witness :
    merge "S x".data ['a'] ⟨['S'], ['E']⟩ =
      pyStrip "S x".data ++ sepNL ++ wrapBlock ⟨['S'], ['E']⟩ ['a'] :=
  c4_unmatched_start "S x".data ['a'] ⟨['S'], ['E']⟩ 0 (by decide) (by decide)
    (by decide) (not_occursIn_of_B (by decide))

/-- C1, counterexample to the claim as stated: when the generated body
contains the end marker, merging a second time mis-locates the block
boundary and the result differs from the first output, so merge is not
idempotent for arbitrary bodies. -/
theorem c1_counterexample :
    merge (merge [] ['E'] ⟨['S'], ['E']⟩) ['E'] ⟨['S'], ['E']⟩ ≠
      merge [] ['E'] ⟨['S'], ['E']⟩ := by decide

/-- C1, amended: merge is idempotent up to equality of the whole output
provided the markers are non-empty, contain no newline, the start marker
does not begin with whitespace and the end marker does not end with
whitespace, the trimmed document contains no occurrence of the start
marker, and the generated body contains no occurrence of the end marker.
The shipped configuration (identical 16-character markers with no
newline or boundary whitespace) satisfies the marker conditions. -/
theorem c1_idempotent (d g : Text) (m : Markers)
    (hst : m.start ≠ []) (hen : m.stop ≠ [])
    (hstn : '\n' ∉ m.start) (henn : '\n' ∉ m.stop)
    (hsw : isPyWS (m.start.headD 'x') = false)
    (hew : isPyWS (m.stop.reverse.headD 'x') = false)
    (h1 : ¬ occursIn m.start (pyStrip d))
    (hg : ¬ occursIn m.stop g) :
    merge (merge d g m) g m = merge d g m := by
  rw [merge_of_no_start h1]
  exact merge_clean m (pyStrip d) g g hst hen hstn henn hsw hew
    (pyStrip_headD d) (pyStrip_revHeadD d) h1 hg

/-- C1 witness: idempotence at the shipped markers on a concrete
document. -/
theorem c1_witness :
    merge (merge "x".data ['a'] shippedMarkers) ['a'] shippedMarkers =
      merge "x".data ['a'] shippedMarkers :=
  c1_idempotent "x".data ['a'] shippedMarkers (by decide) (by decide) (by decide)
    (by decide) (by decide) (by decide) (not_occursIn_of_B (by decide))
    (not_occursIn_of_B (by decide))

/-- C6, counterexample to the claim as stated: with `d0 = "E x"`,
`g1 = "a"`, `g2 = "b"` (bodies disjoint and marker-free, as the claim
requires) the second merge output is "E x\n\nS\nb\nE", which contains
TWO occurrences of the end marker "E" (indices 0 and 9), not exactly
one: the claim omits the needed precondition that the document itself is
marker-free. -/
theorem c6_counterexample :
    merge (merge "E x".data ['a'] ⟨['S'], ['E']⟩) ['b'] ⟨['S'], ['E']⟩ =
      "E x\n\nS\nb\nE".data ∧
    ¬ uniqueOcc ['E']
      (merge (merge "E x".data ['a'] ⟨['S'], ['E']⟩) ['b'] ⟨['S'], ['E']⟩) := by
  constructor
  · decide
  · rintro ⟨i, -, hall⟩
    have h0 := hall 0 (by decide)
    have h9 := hall 9 (by decide)
    omega

/-- C6, amended: replacement, not accumulation.  If the markers are
non-empty, newline-free, with no whitespace at the outer boundaries,
neither marker occurs in the other, the trimmed document `d0` contains
neither marker, the bodies `g1`, `g2` contain neither marker, and `g1`
is non-empty, newline-free and occurs in none of the trimmed document,
the markers, or `g2`, then the double merge output consists of the
trimmed document followed by the wrapped `g2` block, contains exactly
one occurrence of the start marker, exactly one occurrence of the end
marker, and no occurrence of `g1`. -/
theorem c6_replacement (d0 g1 g2 : Text) (m : Markers)
    (hst : m.start ≠ []) (hen : m.stop ≠ [])
    (hstn : '\n' ∉ m.start) (henn : '\n' ∉ m.stop)
    (hsw : isPyWS (m.start.headD 'x') = false)
    (hew : isPyWS (m.stop.reverse.headD 'x') = false)
    (hd0st : ¬ occursIn m.start (pyStrip d0))
    (hd0en : ¬ occursIn m.stop (pyStrip d0))
    (hg1en : ¬ occursIn m.stop g1)
    (hsten : ¬ occursIn m.start m.stop)
    (henst : ¬ occursIn m.stop m.start)
    (hg2st : ¬ occursIn m.start g2)
    (hg2en : ¬ occursIn m.stop g2)
    (hg1ne : g1 ≠ []) (hg1nl : '\n' ∉ g1)
    (hg1d : ¬ occursIn g1 (pyStrip d0))
    (hg1st : ¬ occursIn g1 m.start)
    (hg1en2 : ¬ occursIn g1 m.stop)
    (hg1g2 : ¬ occursIn g1 g2) :
    merge (merge d0 g1 m) g2 m = assemble m (pyStrip d0) g2 ∧
    uniqueOcc m.start (merge (merge d0 g1 m) g2 m) ∧
    uniqueOcc m.stop (merge (merge d0 g1 m) g2 m) ∧
    ¬ occursIn g1 (merge (merge d0 g1 m) g2 m) := by
  have ho : merge (merge d0 g1 m) g2 m = assemble m (pyStrip d0) g2 := by
    rw [merge_of_no_start hd0st]
    exact merge_clean m (pyStrip d0) g1 g2 hst hen hstn henn hsw hew
      (pyStrip_headD d0) (pyStrip_revHeadD d0) hd0st hg1en
  refine ⟨ho, ?_, ?_, ?_⟩
  · rw [ho]
    exact unique_start_assemble hst hstn hd0st hg2st hsten
  · rw [ho]
    exact unique_stop_assemble hen henn hd0en hg2en henst
  · rw [ho]
    exact not_occursIn_assemble hg1ne hg1nl hg1d hg1st hg1g2 hg1en2

/-- C6 witness: replacement at concrete clean inputs. -/
theorem c6_witness :
    merge (merge "q".data ['a'] ⟨['S'], ['E']⟩) ['b'] ⟨['S'], ['E']⟩ =
      assemble ⟨['S'], ['E']⟩ (pyStrip "q".data) ['b'] ∧
    uniqueOcc ['S'] (merge (merge "q".data ['a'] ⟨['S'], ['E']⟩) ['b'] ⟨['S'], ['E']⟩) ∧
    uniqueOcc ['E'] (merge (merge "q".data ['a'] ⟨['S'], ['E']⟩) ['b'] ⟨['S'], ['E']⟩) ∧
    ¬ occursIn ['a'] (merge (merge "q".data ['a'] ⟨['S'], ['E']⟩) ['b'] ⟨['S'], ['E']⟩) :=
  c6_replacement "q".data ['a'] ['b'] ⟨['S'], ['E']⟩ (by decide) (by decide)
    (by decide) (by decide) (by decide) (by decide)
    (not_occursIn_of_B (by decide)) (not_occursIn_of_B (by decide))
    (not_occursIn_of_B (by decide)) (not_occursIn_of_B (by decide))
    (not_occursIn_of_B (by decide)) (not_occursIn_of_B (by decide))
    (not_occursIn_of_B (by decide)) (by decide) (by decide)
    (not_occursIn_of_B (by decide)) (not_occursIn_of_B (by decide))
    (not_occursIn_of_B (by decide)) (not_occursIn_of_B (by decide))

/-- C10: the shipped markers are the identical string
"## local-helpers"; a section is detected only when that string occurs
at least twice (at two distinct indices), and a document whose trimmed
content has exactly one occurrence of the marker is treated as having no
ManagedBlock: the search fails, nothing is removed, and a fresh block is
appended after the trimmed content. -/
theorem c10_identical_markers :
    shippedMarkers.start = shippedMarkers.stop ∧
    shippedMarkers.start = "## local-helpers".data ∧
    (∀ s i e, find_existing_section shippedMarkers s = some (i, e) →
      ∃ i1 i2, i1 ≠ i2 ∧ occursAt shippedMarkerText s i1 ∧
        occursAt shippedMarkerText s i2) ∧
    (∀ d g i, occursAt shippedMarkerText (pyStrip d) i →
      (∀ j ≤ (pyStrip d).length, j ≠ i →
        ¬ occursAt shippedMarkerText (pyStrip d) j) →
      find_existing_section shippedMarkers (pyStrip d) = none ∧
      merge d g shippedMarkers =
        pyStrip d ++ sepNL ++ wrapBlock shippedMarkers g) := by
  have hMne : shippedMarkerText ≠ [] := by decide
  have hM16 : shippedMarkerText.length = 16 := by decide
  refine ⟨rfl, rfl, ?_, ?_⟩
  · intro s i e h
    have h' : findMatch shippedMarkerText shippedMarkerText s = some (i, e) := h
    obtain ⟨h1, j, h2, he⟩ := findMatch_some_elim h'
    have ho1 := ((findSub_some_iff _ _ _).mp h1).1
    have ho2 := ((findSub_some_iff _ _ _).mp h2).1
    rw [occursAt_drop_iff] at ho2
    refine ⟨i, i + shippedMarkerText.length + j, ?_, ho1, ho2⟩
    omega
  · intro d g i hocc huniq
    have hfirst : ∀ j < i, ¬ occursAt shippedMarkerText (pyStrip d) j := by
      intro j hj hoj
      have hle := occursAt_length hoj hMne
      exact (huniq j (by omega) (by omega)) hoj
    have h1 : findSub shippedMarkerText (pyStrip d) = some i :=
      (findSub_some_iff _ _ _).mpr ⟨hocc, hfirst⟩
    have h2 : findSub shippedMarkerText
        ((pyStrip d).drop (i + shippedMarkerText.length)) = none := by
      apply (findSub_none_iff _ _).mpr
      intro k hk
      rw [occursAt_drop_iff] at hk
      have hle := occursAt_length hk hMne
      exact (huniq (i + shippedMarkerText.length + k) (by omega) (by omega)) hk
    have h3 : find_existing_section shippedMarkers (pyStrip d) = none := by
      unfold find_existing_section
      exact findMatch_none_of_en h1 h2
    refine ⟨h3, ?_⟩
    rw [merge_no_match h3, if_neg]
    intro hnil
    rw [hnil] at hocc
    have h4 := occursAt_length hocc hMne
    rw [List.length_nil] at h4
    omega

/-- C10 witness: a two-occurrence document is detected; a
single-occurrence document is treated as block-free and the fresh block
is appended after it. -/
theorem c10_witness :
    (∃ i1 i2, i1 ≠ i2 ∧
      occursAt shippedMarkerText "## local-helpers ## local-helpers".data i1 ∧
      occursAt shippedMarkerText "## local-helpers ## local-helpers".data i2) ∧
    (find_existing_section shippedMarkers (pyStrip "## local-helpers".data) = none ∧
      merge "## local-helpers".data ['a'] shippedMarkers =
        pyStrip "## local-helpers".data ++ sepNL ++
          wrapBlock shippedMarkers ['a']) := by
  constructor
  · exact c10_identical_markers.2.2.1 "## local-helpers ## local-helpers".data
      0 33 (by decide)
  · exact c10_identical_markers.2.2.2 "## local-helpers".data ['a'] 0
      (by decide) (by decide)
